import Mathlib

/-!
Shallow embedding of the daily aggregation / rolling-correlation pipeline of the
Financial-News-Sentiment-Tracker repository
(`services/processor/daily_aggregator.py`, `services/processor/daily_correlation.py`,
`services/processor/timeseries_builder.py`, `services/api/main.py`), together with
proofs checking the natural-language specification against it.

Modelling conventions:
* Python floats are modelled as `ℚ`.  The single use of a non-rational operation,
  `(den_x * den_y) ** 0.5` in `pearson_corr`, is abstracted as an explicit square-root
  parameter `sqrt : ℚ → ℚ` threaded through the correlation definitions; every theorem
  holds for an arbitrary `sqrt`, in particular for the real one.
* Naive UTC datetimes are modelled as `Int` seconds; truncating a datetime to its
  calendar date (`ts.date()`) is division by 86400, and a calendar date is the `Int`
  day number.  `datetime.now(UTC)` is modelled by an explicit clock argument `t`.
* Mongo collections are Lean lists kept in retrieval order; `find` with a filter is
  `List.filter`, `find` with a `sort` key is a stable insertion sort on that key, and
  `update_one` on a key touches the matching rows (the collection carries a unique
  (ticker, date) index, so at most one row can match).
-/

namespace FinSent

/-- A pair (daily_return, avg_sentiment_score) as read from a DailyMetric row;
either component may be null. -/
abbrev Obs := Option ℚ × Option ℚ

/-- A raw news event (collection `news_events`), restricted to the fields the
aggregation pipeline reads. -/
structure NEvent where
  ticker : String
  published_at : Int
  sentiment_score : Option ℚ
  sentiment_label : Option String
deriving DecidableEq, Repr

/-- A raw daily price candle (collection `price_snapshots`), restricted to the fields
`build_price_series` reads (`ts` and `close`). -/
structure PCandle where
  ticker : String
  ts : Int
  close : ℚ
deriving DecidableEq, Repr

/-- A row of the derived collection `daily_ticker_metrics`.  `date` is the calendar-day
number (the code stores a midnight datetime).  `updated_at` / `corr_updated_at` are
`none` for a field never written. -/
structure DRow where
  ticker : String
  date : Int
  close_price : Option ℚ
  daily_return : Option ℚ
  avg_sentiment_score : Option ℚ
  dominant_sentiment_label : Option String
  article_count : Nat
  rolling_corr_7d : Option ℚ
  updated_at : Option Int
  corr_updated_at : Option Int
deriving DecidableEq, Repr

/-- The ticker list, defined identically in `daily_aggregator.py`,
`daily_correlation.py` and `api/main.py`. -/
def TICKERS : List String := ["AAPL", "MSFT", "TSLA", "NVDA"]

/-- The three collections the pipeline touches. -/
structure Store where
  news : List NEvent
  prices : List PCandle
  daily : List DRow
deriving DecidableEq, Repr

/-- A Python runtime error surfaced by the embedding. -/
inductive PyErr
  | nameError
deriving DecidableEq, Repr

/-- The module-level names bound in `daily_aggregator.py`: its imports
(`os`, `from datetime import datetime, timedelta, date`, `Counter`, `load_dotenv`,
`MongoClient`, `ASCENDING`), its module constants and its function definitions.
`UTC` is bound nowhere in the module (and is not a Python builtin), which is what
makes `datetime.now(UTC)` in `upsert_daily_metric` a `NameError`. -/
def daily_aggregator_globals : List String :=
  ["os", "datetime", "timedelta", "date", "Counter", "load_dotenv",
   "MongoClient", "ASCENDING", "BASE_DIR", "env_path", "MONGO_URI", "MONGO_DB_NAME",
   "TICKERS", "get_collections", "start_of_day", "build_price_series",
   "aggregate_sentiment_for_day", "upsert_daily_metric", "run_daily_aggregation"]

/-! ### Daily Series Builder (`build_price_series`) -/

/-- Model of `ts.date()`: truncate a (naive UTC) instant to its calendar day. -/
def dateOf (ts : Int) : Int := ts / 86400

/-- Sort candles ascending by timestamp (the `sort=[("ts", ASCENDING)]` of the find). -/
def sortByTs (l : List PCandle) : List PCandle :=
  l.insertionSort (fun a b => a.ts ≤ b.ts)

/-- Python-dict assignment `result[d] = v`: update in place if the key is present
(keeping its position), otherwise append. -/
def dictUpd (acc : List (Int × ℚ × Option ℚ)) (d : Int) (v : ℚ × Option ℚ) :
    List (Int × ℚ × Option ℚ) :=
  if acc.any (fun e => e.1 = d) then
    acc.map (fun e => if e.1 = d then (d, v) else e)
  else acc ++ [(d, v)]

/-- Model of `daily_ret = (close - prev_close) / prev_close if prev_close != 0 else None`,
with `None` when there is no previous close yet. -/
def retOf (prev : Option ℚ) (close : ℚ) : Option ℚ :=
  match prev with
  | none => none
  | some p => if p ≠ 0 then some ((close - p) / p) else none

/-- The result-building loop of `build_price_series`: walk the (date, close) series,
carrying `prev_close`, assigning `result[d] = {close, daily_return}`. -/
def priceSeriesAux : List (Int × ℚ) → Option ℚ → List (Int × ℚ × Option ℚ) →
    List (Int × ℚ × Option ℚ)
  | [], _, acc => acc
  | (d, c) :: rest, prev, acc =>
      priceSeriesAux rest (some c) (dictUpd acc d (c, retOf prev c))

/-- Model of `build_price_series(prices_coll, ticker)`: dict from calendar date to
(close_price, daily_return), in insertion order. -/
def build_price_series (prices : List PCandle) (ticker : String) :
    List (Int × ℚ × Option ℚ) :=
  let rows := sortByTs (prices.filter (fun p => p.ticker = ticker))
  let series := rows.map (fun p => (dateOf p.ts, p.close))
  priceSeriesAux series none []

/-! ### Daily Sentiment Aggregator (`aggregate_sentiment_for_day`) -/

/-- Model of `start_of_day(d)`: naive UTC midnight of day `d`, as an instant. -/
def start_of_day (d : Int) : Int := d * 86400

/-- The first-occurrence order of the distinct elements of `l` (the key order of a
Python `Counter` built from `l`). -/
def firstOccs : List String → List String
  | [] => []
  | x :: xs => x :: firstOccs (xs.filter (fun y => y ≠ x))
termination_by l => l.length
decreasing_by
  simp only [List.length_cons]
  exact Nat.lt_succ_of_le (List.length_filter_le _ _)

/-- Model of `Counter(labels).most_common(1)[0][0]` (with `None` for no labels): the most
frequent element, ties broken by first-encountered order. -/
def mostCommonFirst (labels : List String) : Option String :=
  (firstOccs labels).foldl
    (fun best x =>
      match best with
      | none => some x
      | some b => if labels.count b < labels.count x then some x else best)
    none

/-- The qualifying events of `aggregate_sentiment_for_day`: this ticker, published in
the half-open day `[start_of_day d, start_of_day d + 1 day)`, with a non-null
sentiment score, in retrieval order. -/
def qualifyingEvents (news : List NEvent) (ticker : String) (d : Int) : List NEvent :=
  news.filter (fun e =>
    e.ticker = ticker ∧ start_of_day d ≤ e.published_at ∧
      e.published_at < start_of_day d + 86400 ∧ e.sentiment_score ≠ none)

/-- Model of `aggregate_sentiment_for_day(news_coll, ticker, d)`, returning
(avg_sentiment_score, dominant_label, article_count).  The label comprehension
`if doc.get("sentiment_label")` is a Python truthiness test, which drops both null
and empty-string labels. -/
def aggregate_sentiment_for_day (news : List NEvent) (ticker : String) (d : Int) :
    Option ℚ × Option String × Nat :=
  let docs := qualifyingEvents news ticker d
  if docs.isEmpty then (none, none, 0)
  else
    let scores := docs.filterMap (fun e => e.sentiment_score)
    let labels := (docs.filterMap (fun e => e.sentiment_label)).filter (fun s => s ≠ "")
    let avg : Option ℚ := if scores.isEmpty then none else some (scores.sum / scores.length)
    (avg, mostCommonFirst labels, docs.length)

/-! ### Daily Metrics Upserter (`upsert_daily_metric`, `run_daily_aggregation`) -/

/-- The `update_one({"ticker", "date"}, {"$set": {...}}, upsert=True)` of
`upsert_daily_metric`, had its `$set` document been evaluable: replace the metric
fields of the matching row, or insert a fresh row (whose unset fields
`rolling_corr_7d` / `corr_updated_at` are null). -/
def upsertRow (ticker : String) (d : Int) (close_price daily_return avg_sentiment : Option ℚ)
    (dominant_label : Option String) (article_count : Nat) (t : Option Int)
    (l : List DRow) : List DRow :=
  if l.any (fun r => r.ticker = ticker ∧ r.date = d) then
    l.map (fun r =>
      if r.ticker = ticker ∧ r.date = d then
        { r with close_price := close_price, daily_return := daily_return,
                 avg_sentiment_score := avg_sentiment,
                 dominant_sentiment_label := dominant_label,
                 article_count := article_count, updated_at := t }
      else r)
  else
    l ++ [⟨ticker, d, close_price, daily_return, avg_sentiment, dominant_label,
           article_count, none, t, none⟩]

/-- Model of `upsert_daily_metric`: building the `$set` document evaluates `datetime.now(UTC)`,
which resolves the name `UTC` against the module globals (and builtins, which do not
bind `UTC` either) before `update_one` can run. -/
def upsert_daily_metric (t : Int) (ticker : String) (d : Int)
    (close_price daily_return avg_sentiment : Option ℚ) (dominant_label : Option String)
    (article_count : Nat) (l : List DRow) : Except PyErr (List DRow) :=
  if "UTC" ∈ daily_aggregator_globals then
    .ok (upsertRow ticker d close_price daily_return avg_sentiment dominant_label
          article_count (some t) l)
  else .error .nameError

/-- The inner date loop of `run_daily_aggregation`: `for d in sorted(price_series.keys())`,
skipping dates before `start_date`, aggregating sentiment and upserting.  An uncaught
exception aborts the loop with the collection in its current state. -/
def run_dates (t : Int) (news : List NEvent) (ticker : String) (startD : Int) :
    List (Int × ℚ × Option ℚ) → List DRow → List DRow × Option PyErr
  | [], l => (l, none)
  | (d, c, ret) :: rest, l =>
      if d < startD then run_dates t news ticker startD rest l
      else
        let res := aggregate_sentiment_for_day news ticker d
        match upsert_daily_metric t ticker d (some c) ret res.1 res.2.1 res.2.2 l with
        | .ok l2 => run_dates t news ticker startD rest l2
        | .error e => (l, some e)

/-- Sort a price-series dict by key (`sorted(price_series.keys())`; dict keys are
unique, so sorting the entries by key is the same iteration). -/
def sortByKey (l : List (Int × ℚ × Option ℚ)) : List (Int × ℚ × Option ℚ) :=
  l.insertionSort (fun a b => a.1 ≤ b.1)

/-- The ticker loop of `run_daily_aggregation`; an empty price series is skipped
(`run_dates` on an empty list is the same no-op), an exception propagates. -/
def run_agg_tickers (t : Int) (news : List NEvent) (prices : List PCandle) (startD : Int) :
    List String → List DRow → List DRow × Option PyErr
  | [], l => (l, none)
  | ticker :: rest, l =>
      let series := sortByKey (build_price_series prices ticker)
      match run_dates t news ticker startD series l with
      | (l2, none) => run_agg_tickers t news prices startD rest l2
      | (l2, some e) => (l2, some e)

/-- Model of `run_daily_aggregation(days_back)`: `start_date = today - timedelta(days=days_back)`,
then the ticker loop.  Returns the final store and the uncaught exception, if any. -/
def run_daily_aggregation (t today : Int) (days_back : Nat) (s : Store) :
    Store × Option PyErr :=
  let res := run_agg_tickers t s.news s.prices (today - days_back) TICKERS s.daily
  ({ s with daily := res.1 }, res.2)

/-! ### Rolling Correlation Engine (`pearson_corr`, `update_rolling_corr_for_ticker`) -/

/-- Model of `sum(xs) / n`. -/
def meanOf (l : List ℚ) : ℚ := l.sum / (l.length : ℚ)

/-- Model of `sum((x - mean) ** 2 for x in xs)`. -/
def ssDev (l : List ℚ) : ℚ := (l.map (fun x => (x - meanOf l) ^ 2)).sum

/-- Model of `sum((x - mean_x) * (y - mean_y) for x, y in zip(xs, ys))`. -/
def covSum (ps : List (ℚ × ℚ)) : ℚ :=
  let mx := meanOf (ps.map Prod.fst)
  let my := meanOf (ps.map Prod.snd)
  (ps.map (fun p => (p.1 - mx) * (p.2 - my))).sum

/-- Model of `pearson_corr(pairs)`: `None` for fewer than 2 points or a zero sum-of-squares
term, otherwise `num / (den_x * den_y) ** 0.5` (square root abstracted). -/
def pearson_corr (sqrt : ℚ → ℚ) (ps : List (ℚ × ℚ)) : Option ℚ :=
  if ps.length < 2 then none
  else
    let den_x := ssDev (ps.map Prod.fst)
    let den_y := ssDev (ps.map Prod.snd)
    if den_x = 0 ∨ den_y = 0 then none
    else some (covSum ps / sqrt (den_x * den_y))

/-- The list comprehension filtering the window to pairs with both components
non-null. -/
def validPairs (hist : List Obs) : List (ℚ × ℚ) :=
  hist.filterMap (fun h =>
    match h.1, h.2 with
    | some x, some y => some (x, y)
    | _, _ => none)

/-- One window update: `history.append(x)` then
`if len(history) > window: history.pop(0)`. -/
def stepWindow (window : Nat) (hist : List Obs) (x : Obs) : List Obs :=
  let h1 := hist ++ [x]
  if window < h1.length then h1.tail else h1

/-- Model of `corr = pearson_corr(pairs) if pairs else None` over the valid pairs of a window. -/
def corrOfWindow (sqrt : ℚ → ℚ) (hist : List Obs) : Option ℚ :=
  let pairs := validPairs hist
  if pairs.isEmpty then none else pearson_corr sqrt pairs

/-- The correlation value computed at one loop step, after the window update. -/
def stepCorr (sqrt : ℚ → ℚ) (window : Nat) (hist : List Obs) (x : Obs) : Option ℚ :=
  corrOfWindow sqrt (stepWindow window hist x)

/-- The stream of correlation values the loop computes (one per visited row),
starting from window state `hist`. -/
def corrListAux (sqrt : ℚ → ℚ) (window : Nat) : List Obs → List Obs → List (Option ℚ)
  | _, [] => []
  | hist, x :: xs =>
      stepCorr sqrt window hist x :: corrListAux sqrt window (stepWindow window hist x) xs

/-- The correlation values written for a visit sequence, in visit order. -/
def corrList (sqrt : ℚ → ℚ) (window : Nat) (rows : List Obs) : List (Option ℚ) :=
  corrListAux sqrt window [] rows

/-- The (daily_return, avg_sentiment_score) observation of a row, as appended to
`history`.  (The source also stores the row's date in the history entry, but never
reads it.) -/
def obsOf (r : DRow) : Obs := (r.daily_return, r.avg_sentiment_score)

/-- Rows of one ticker, in retrieval order. -/
def rowsFor (ticker : String) (l : List DRow) : List DRow :=
  l.filter (fun r => r.ticker = ticker)

/-- Model of the cursor `.sort("date", ASCENDING)`. -/
def sortByDate (l : List DRow) : List DRow :=
  l.insertionSort (fun a b => a.date ≤ b.date)

/-- The per-row write of the correlation loop:
`update_one({"_id": doc["_id"]}, {"$set": {"rolling_corr_7d": corr, "corr_updated_at": now}})`.
The `_id` denotes the snapshot row, identified by its unique (ticker, date) key. -/
def setCorr (corr : Option ℚ) (t : Int) (r : DRow) : DRow :=
  { r with rolling_corr_7d := corr, corr_updated_at := some t }

/-- The main loop of `update_rolling_corr_for_ticker`: for each snapshot doc, update
the window, compute the correlation over the valid pairs, and write it back onto that
doc's row. -/
def corrLoop (sqrt : ℚ → ℚ) (t : Int) (window : Nat) (ticker : String) :
    List Obs → List DRow → List DRow → List DRow
  | _, [], l => l
  | hist, doc :: docs, l =>
      let corr := stepCorr sqrt window hist (obsOf doc)
      corrLoop sqrt t window ticker (stepWindow window hist (obsOf doc)) docs
        (l.map (fun r =>
          if r.ticker = ticker ∧ r.date = doc.date then setCorr corr t r else r))

/-- Model of `update_rolling_corr_for_ticker(coll, ticker, window)`: snapshot the ticker's rows
sorted ascending by date, then run the loop.  (On an empty snapshot the source only
prints a warning; the loop is the identity there anyway.) -/
def update_rolling_corr_for_ticker (sqrt : ℚ → ℚ) (t : Int) (window : Nat)
    (ticker : String) (l : List DRow) : List DRow :=
  corrLoop sqrt t window ticker [] (sortByDate (rowsFor ticker l)) l

/-- Model of `run_rolling_corr(window)`: the correlation pass over every supported ticker. -/
def run_rolling_corr (sqrt : ℚ → ℚ) (t : Int) (window : Nat) (s : Store) : Store :=
  let daily2 :=
    TICKERS.foldl (fun l ticker => update_rolling_corr_for_ticker sqrt t window ticker l)
      s.daily
  { s with daily := daily2 }

/-- One full pipeline run: the daily aggregation pass followed by the rolling
correlation pass, both at clock `t`. -/
def run_pipeline (sqrt : ℚ → ℚ) (t today : Int) (days_back : Nat) (window : Nat)
    (s : Store) : Store :=
  run_rolling_corr sqrt t window (run_daily_aggregation t today days_back s).1

/-! ### Timeseries Reader (`timeseries_builder.py`) and API endpoint (`api/main.py`) -/

/-- Model of `find_one(..., sort=[("date", -1)])`: first row in descending date order. -/
def sortByDateDesc (l : List DRow) : List DRow :=
  l.insertionSort (fun a b => b.date ≤ a.date)

/-- Model of `get_latest_date_for_ticker`. -/
def get_latest_date_for_ticker (daily : List DRow) (ticker : String) : Option Int :=
  ((sortByDateDesc (rowsFor ticker daily)).head?).map (fun r => r.date)

/-- One rendered point of the time series (the date string `"%Y-%m-%d"` is modelled
by the day number itself, an injective rendering). -/
structure TPoint where
  date : Int
  close_price : Option ℚ
  daily_return : Option ℚ
  avg_sentiment : Option ℚ
  dominant_sentiment : Option String
  article_count : Nat
  rolling_corr_7d : Option ℚ
deriving DecidableEq, Repr

/-- The rendering of one DailyMetric row into a point: stored values copied verbatim. -/
def toPoint (r : DRow) : TPoint :=
  ⟨r.date, r.close_price, r.daily_return, r.avg_sentiment_score,
   r.dominant_sentiment_label, r.article_count, r.rolling_corr_7d⟩

/-- The response of `build_ticker_timeseries`. -/
structure TSeries where
  ticker : String
  from_date : Option Int
  to_date : Option Int
  points : List TPoint
deriving DecidableEq, Repr

/-- Model of `build_ticker_timeseries(ticker, days_back)`. -/
def build_ticker_timeseries (daily : List DRow) (ticker : String) (days_back : Int) :
    TSeries :=
  match get_latest_date_for_ticker daily ticker with
  | none => ⟨ticker, none, none, []⟩
  | some latest =>
      let start := latest - (days_back - 1)
      let rows := sortByDate (daily.filter (fun r => r.ticker = ticker ∧ start ≤ r.date))
      ⟨ticker, some start, some latest, rows.map toPoint⟩

/-- Python's `str.upper()` on ASCII tickers (evaluable char-by-char uppercase map;
semantically `String.toUpper`). -/
def toUpperStr (s : String) : String := ⟨s.data.map Char.toUpper⟩

/-- An HTTPException raised by the endpoint. -/
structure HTTPError where
  status : Nat
  detail : String
deriving DecidableEq, Repr

/-- Model of `GET /ticker/\x7bticker\x7d/timeseries` (`get_ticker_timeseries` in `api/main.py`):
uppercase the path ticker, 404 if unsupported, 404 if the builder returned no points,
otherwise the builder's data.  (FastAPI validates `1 ≤ days ≤ 90` before the handler.) -/
def get_ticker_timeseries (daily : List DRow) (ticker : String) (days : Int) :
    Except HTTPError TSeries :=
  let T := toUpperStr ticker
  if T ∈ TICKERS then
    let data := build_ticker_timeseries daily T days
    if data.points.isEmpty then
      .error ⟨404, "No daily metrics found for ticker " ++ T⟩
    else .ok data
  else .error ⟨404, "Ticker " ++ T ++ " is not supported"⟩

/-! ### Derived notions used to state and prove the claims -/

/-- The last `w` elements of a list: the window the loop's FIFO eviction keeps after
visiting exactly that prefix of rows. -/
def windowOf (w : Nat) (l : List Obs) : List Obs := l.drop (l.length - w)

/-- The cumulative effect, on one row, of the correlation loop's sequence of writes
`(date, corr)` for ticker `ticker` at clock `t`. -/
def chainWrite (t : Int) (ticker : String) (ws : List (Int × Option ℚ)) (r : DRow) : DRow :=
  ws.foldl (fun r dc => if r.ticker = ticker ∧ r.date = dc.1 then setCorr dc.2 t r else r) r

/-- The value of the last write in `ws` whose date matches `d`, if any. -/
def lastWrite (d : Int) : List (Int × Option ℚ) → Option (Option ℚ)
  | [] => none
  | dc :: ws =>
      match lastWrite d ws with
      | some c => some c
      | none => if d = dc.1 then some dc.2 else none

/-- The write sequence `(date, corr)` the correlation pass produces for one ticker:
dates of the sorted snapshot zipped with the computed correlation stream. -/
def wsOf (sqrt : ℚ → ℚ) (w : Nat) (l : List DRow) (ticker : String) :
    List (Int × Option ℚ) :=
  let docs := sortByDate (rowsFor ticker l)
  (docs.map (fun r => r.date)).zip (corrList sqrt w (docs.map obsOf))

/-- The correlation pass over a ticker list (the loop body of `run_rolling_corr`). -/
def corrPass (sqrt : ℚ → ℚ) (t : Int) (w : Nat) (ts : List String) (l : List DRow) :
    List DRow :=
  ts.foldl (fun l ticker => update_rolling_corr_for_ticker sqrt t w ticker l) l

/-- The cumulative per-row effect of a whole correlation pass, given the write family
`fam` (one write sequence per ticker). -/
def passWrite (fam : String → List (Int × Option ℚ)) (t : Int) :
    List String → DRow → DRow
  | [], r => r
  | ticker :: ts, r => passWrite fam t ts (chainWrite t ticker (fam ticker) r)

/-- Forget the correlation timestamp of a row. -/
def eraseTime (r : DRow) : DRow := { r with corr_updated_at := none }

/-- The fields of a row that belong to the aggregation pass (everything except
`rolling_corr_7d` and `corr_updated_at`). -/
def metricFields (r : DRow) :
    String × Int × Option ℚ × Option ℚ × Option ℚ × Option String × Nat × Option Int :=
  (r.ticker, r.date, r.close_price, r.daily_return, r.avg_sentiment_score,
   r.dominant_sentiment_label, r.article_count, r.updated_at)

/-- The unique keys of the daily collection. -/
def keysOf (l : List DRow) : List (String × Int) := l.map (fun r => (r.ticker, r.date))

/-- The unique index `(ticker, date)` of `daily_ticker_metrics`: no two rows share
a key. -/
abbrev KeysNodup (l : List DRow) : Prop := (keysOf l).Nodup

/-- A row transformation that preserves the fields the correlation pass reads and
keys on (ticker, date, daily_return, avg_sentiment_score). -/
def PresCW (g : DRow → DRow) : Prop :=
  ∀ r, (g r).ticker = r.ticker ∧ (g r).date = r.date ∧
    (g r).daily_return = r.daily_return ∧ (g r).avg_sentiment_score = r.avg_sentiment_score

/-- The accumulator-free form of the `build_price_series` loop when no date repeats:
each entry carries the close and the return from the previous close. -/
def zipSeries : Option ℚ → List (Int × ℚ) → List (Int × ℚ × Option ℚ)
  | _, [] => []
  | prev, (d, c) :: rest => (d, c, retOf prev c) :: zipSeries (some c) rest

/-- A two-row daily collection used to instantiate the universally quantified claims
on concrete data. -/
def wlC2 : List DRow :=
  [⟨"AAPL", 0, none, none, none, none, 0, none, none, none⟩,
   ⟨"AAPL", 1, none, none, none, none, 0, none, none, none⟩]

/-- A one-row store used to exhibit the timestamp refresh on re-runs. -/
def s0C7 : Store :=
  ⟨[], [], [⟨"AAPL", 0, none, none, none, none, 0, none, none, none⟩]⟩

/-- Two concrete candles on consecutive days, to instantiate the series-builder claim. -/
def wpC5 : List PCandle := [⟨"AAPL", 0, 10⟩, ⟨"AAPL", 86400, 20⟩]

/-- The spec's worked sentiment example: two AAPL events on one day with scores 0.4
and -0.2 and labels bullish / bearish, retrieved in that order. -/
def wnC6 : List NEvent :=
  [⟨"AAPL", 100, some (2 / 5), some "bullish"⟩,
   ⟨"AAPL", 200, some (-(1 / 5)), some "bearish"⟩]

instance dateLeTotal : IsTotal DRow (fun a b => a.date ≤ b.date) :=
  ⟨fun a b => le_total a.date b.date⟩

instance dateLeTrans : IsTrans DRow (fun a b => a.date ≤ b.date) :=
  ⟨fun _ _ _ h1 h2 => le_trans h1 h2⟩

instance dateGeTotal : IsTotal DRow (fun a b => b.date ≤ a.date) :=
  ⟨fun a b => le_total b.date a.date⟩

instance dateGeTrans : IsTrans DRow (fun a b => b.date ≤ a.date) :=
  ⟨fun _ _ _ h1 h2 => le_trans h2 h1⟩

/-! ### Window lemmas: the FIFO history equals the last-`w`-rows window -/

theorem windowOf_nil (w : Nat) : windowOf w [] = [] := by simp [windowOf]

theorem stepWindow_windowOf (w : Nat) (l : List Obs) (x : Obs) :
    stepWindow w (windowOf w l) x = windowOf w (l ++ [x]) := by
  unfold stepWindow windowOf
  by_cases hlw : l.length < w
  · have h0 : l.length - w = 0 := by omega
    have h0' : l.length + 1 - w = 0 := by omega
    simp [h0, List.length_append, h0']
    omega
  · push_neg at hlw
    have hlen : (l.drop (l.length - w)).length = w := by
      simp [List.length_drop]; omega
    have hcond : w < (l.drop (l.length - w) ++ [x]).length := by
      simp [List.length_append, hlen]
    rw [if_pos hcond]
    rcases Nat.eq_zero_or_pos w with hw0 | hwpos
    · subst hw0
      have : l.drop (l.length - 0) = [] := by
        apply List.drop_eq_nil_of_le; omega
      rw [this]
      have : (l ++ [x]).drop (l.length + 1 - 0) = [] := by
        apply List.drop_eq_nil_of_le; simp
      simp [this, List.length_append]
    · have h1A : 1 ≤ (l.drop (l.length - w)).length := by omega
      have e1 : (l ++ [x]).length - w = l.length + 1 - w := by
        simp [List.length_append]
      rw [← List.drop_one, List.drop_append_of_le_length h1A, List.drop_drop, e1,
        List.drop_append_of_le_length (by omega : l.length + 1 - w ≤ l.length)]
      congr 2
      omega

theorem corrListAux_length (sqrt : ℚ → ℚ) (w : Nat) :
    ∀ (rows : List Obs) (hist : List Obs), (corrListAux sqrt w hist rows).length = rows.length
  | [], _ => rfl
  | _ :: xs, hist => by
      simp [corrListAux, corrListAux_length sqrt w xs]

theorem corrList_length (sqrt : ℚ → ℚ) (w : Nat) (rows : List Obs) :
    (corrList sqrt w rows).length = rows.length :=
  corrListAux_length sqrt w rows []

theorem corrListAux_get (sqrt : ℚ → ℚ) (w : Nat) :
    ∀ (rest : List Obs) (pre : List Obs) (i : Nat)
      (h : i < (corrListAux sqrt w (windowOf w pre) rest).length),
      (corrListAux sqrt w (windowOf w pre) rest).get ⟨i, h⟩ =
        corrOfWindow sqrt (windowOf w (pre ++ rest.take (i + 1)))
  | [], _, i, h => by simp [corrListAux] at h
  | x :: xs, pre, 0, h => by
      simp [corrListAux, stepCorr, stepWindow_windowOf]
  | x :: xs, pre, i + 1, h => by
      have hlt : i < (corrListAux sqrt w (windowOf w (pre ++ [x])) xs).length := by
        rw [corrListAux_length]
        have := h
        rw [corrListAux_length] at this
        simpa using this
      have ih := corrListAux_get sqrt w xs (pre ++ [x]) i hlt
      have hs : corrListAux sqrt w (windowOf w pre) (x :: xs) =
          stepCorr sqrt w (windowOf w pre) x ::
            corrListAux sqrt w (windowOf w (pre ++ [x])) xs := by
        rw [corrListAux, stepWindow_windowOf]
      rw [List.get_of_eq hs, List.get_cons_succ, ih]
      congr 2
      simp [List.take_cons, List.append_assoc]

theorem corrOfWindow_eq_pearson (sqrt : ℚ → ℚ) (hist : List Obs) :
    corrOfWindow sqrt hist = pearson_corr sqrt (validPairs hist) := by
  unfold corrOfWindow
  by_cases h : (validPairs hist).isEmpty
  · rw [if_pos h, pearson_corr]
    rw [List.isEmpty_iff] at h
    rw [h]
    simp
  · rw [if_neg h]

/-- The central window characterisation: the `i`-th computed value is the Pearson
correlation over the valid pairs among the last `min (i+1) w` of the first `i+1` rows. -/
theorem corrList_get (sqrt : ℚ → ℚ) (w : Nat) (rows : List Obs) (i : Nat)
    (h : i < (corrList sqrt w rows).length) :
    (corrList sqrt w rows).get ⟨i, h⟩ =
      pearson_corr sqrt (validPairs (windowOf w (rows.take (i + 1)))) := by
  have hnil : windowOf w [] = ([] : List Obs) := windowOf_nil w
  have hlt : i < (corrListAux sqrt w (windowOf w []) rows).length := by
    rw [hnil]; exact h
  have hmain := corrListAux_get sqrt w rows [] i hlt
  simp only [List.get_eq_getElem, hnil, List.nil_append] at hmain
  rw [← corrOfWindow_eq_pearson]
  simp only [List.get_eq_getElem]
  exact hmain

/-! ### The correlation pass as a per-row write chain -/

theorem chainWrite_nil (t : Int) (ticker : String) (r : DRow) :
    chainWrite t ticker [] r = r := rfl

theorem chainWrite_cons (t : Int) (ticker : String) (dc : Int × Option ℚ)
    (ws : List (Int × Option ℚ)) (r : DRow) :
    chainWrite t ticker (dc :: ws) r =
      chainWrite t ticker ws
        (if r.ticker = ticker ∧ r.date = dc.1 then setCorr dc.2 t r else r) := rfl

theorem corrLoop_eq_map (sqrt : ℚ → ℚ) (t : Int) (w : Nat) (ticker : String) :
    ∀ (docs : List DRow) (hist : List Obs) (l : List DRow),
      corrLoop sqrt t w ticker hist docs l =
        l.map (chainWrite t ticker
          ((docs.map (fun r => r.date)).zip (corrListAux sqrt w hist (docs.map obsOf))))
  | [], hist, l => by
      show l = l.map (chainWrite t ticker [])
      rw [show chainWrite t ticker ([] : List (Int × Option ℚ)) = id from rfl, List.map_id]
  | doc :: docs, hist, l => by
      rw [corrLoop, corrLoop_eq_map sqrt t w ticker docs _ _, List.map_map]
      rfl

theorem update_eq_map (sqrt : ℚ → ℚ) (t : Int) (w : Nat) (ticker : String)
    (l : List DRow) :
    update_rolling_corr_for_ticker sqrt t w ticker l =
      l.map (chainWrite t ticker (wsOf sqrt w l ticker)) :=
  corrLoop_eq_map sqrt t w ticker (sortByDate (rowsFor ticker l)) [] l

theorem setCorr_metric (c : Option ℚ) (t : Int) (r : DRow) :
    metricFields (setCorr c t r) = metricFields r := rfl

theorem setCorr_setCorr (c1 c2 : Option ℚ) (t1 t2 : Int) (r : DRow) :
    setCorr c2 t2 (setCorr c1 t1 r) = setCorr c2 t2 r := rfl

theorem chainWrite_metric (t : Int) (ticker : String) :
    ∀ (ws : List (Int × Option ℚ)) (r : DRow),
      metricFields (chainWrite t ticker ws r) = metricFields r
  | [], _ => rfl
  | dc :: ws, r => by
      rw [chainWrite_cons, chainWrite_metric t ticker ws]
      split <;> rfl

theorem presCW_chainWrite (t : Int) (ticker : String) (ws : List (Int × Option ℚ)) :
    PresCW (chainWrite t ticker ws) := by
  intro r
  have h := chainWrite_metric t ticker ws r
  exact ⟨congrArg (fun x => x.1) h, congrArg (fun x => x.2.1) h,
    congrArg (fun x => x.2.2.2.1) h, congrArg (fun x => x.2.2.2.2.1) h⟩

theorem chainWrite_skip (t : Int) (ticker : String) :
    ∀ (ws : List (Int × Option ℚ)) (r : DRow), r.ticker ≠ ticker →
      chainWrite t ticker ws r = r
  | [], _, _ => rfl
  | dc :: ws, r, h => by
      rw [chainWrite_cons, if_neg (fun hc => h hc.1), chainWrite_skip t ticker ws r h]

theorem lastWrite_cons (d : Int) (dc : Int × Option ℚ) (ws : List (Int × Option ℚ)) :
    lastWrite d (dc :: ws) =
      (match lastWrite d ws with
       | some c => some c
       | none => if d = dc.1 then some dc.2 else none) := rfl

theorem chainWrite_eq_lastWrite (t : Int) (ticker : String) :
    ∀ (ws : List (Int × Option ℚ)) (r : DRow), r.ticker = ticker →
      chainWrite t ticker ws r =
        (Option.map (fun c => setCorr c t r) (lastWrite r.date ws)).getD r
  | [], _, _ => rfl
  | dc :: ws, r, h => by
      rw [chainWrite_cons, lastWrite_cons]
      by_cases hd : r.date = dc.1
      · rw [if_pos ⟨h, hd⟩]
        have hih := chainWrite_eq_lastWrite t ticker ws (setCorr dc.2 t r) h
        rw [show (setCorr dc.2 t r).date = r.date from rfl] at hih
        rw [hih]
        rcases hlw : lastWrite r.date ws with _ | c
        · show setCorr dc.2 t r =
            (Option.map (fun c => setCorr c t r) (if r.date = dc.1 then some dc.2 else none)).getD r
          rw [if_pos hd]
          rfl
        · show (Option.map (fun c => setCorr c t (setCorr dc.2 t r)) (some c)).getD _ =
            (Option.map (fun c => setCorr c t r) (some c)).getD r
          rfl
      · rw [if_neg (fun hc => hd hc.2), chainWrite_eq_lastWrite t ticker ws r h]
        rcases hlw : lastWrite r.date ws with _ | c
        · show (Option.map (fun c => setCorr c t r) none).getD r =
            (Option.map (fun c => setCorr c t r) (if r.date = dc.1 then some dc.2 else none)).getD r
          rw [if_neg hd]
        · rfl

theorem lastWrite_none (d : Int) :
    ∀ (ws : List (Int × Option ℚ)), d ∉ ws.map (fun dc => dc.1) → lastWrite d ws = none
  | [], _ => rfl
  | dc :: ws, h => by
      have h1 : d ∉ ws.map (fun dc => dc.1) := fun hm => h (by simp [hm])
      have h2 : d ≠ dc.1 := fun he => h (by simp [he])
      rw [lastWrite_cons, lastWrite_none d ws h1]
      show (if d = dc.1 then some dc.2 else none) = none
      rw [if_neg h2]

theorem lastWrite_get (d : Int) :
    ∀ (ws : List (Int × Option ℚ)), (ws.map (fun dc => dc.1)).Nodup →
      ∀ (i : Nat) (hi : i < ws.length), d = (ws.get ⟨i, hi⟩).1 →
        lastWrite d ws = some (ws.get ⟨i, hi⟩).2
  | [], _, i, hi, _ => absurd hi (by simp)
  | dc :: ws, hnd, 0, hi, hd => by
      have hnotin : dc.1 ∉ ws.map (fun dc => dc.1) := by
        simp only [List.map_cons, List.nodup_cons] at hnd
        exact hnd.1
      have hd0 : d = dc.1 := hd
      have hn : lastWrite d ws = none := lastWrite_none d ws (by rw [hd0]; exact hnotin)
      rw [lastWrite_cons, hn]
      show (if d = dc.1 then some dc.2 else none) = some ((dc :: ws).get ⟨0, hi⟩).2
      rw [if_pos hd0]
      rfl
  | dc :: ws, hnd, i + 1, hi, hd => by
      have hnd' : (ws.map (fun dc => dc.1)).Nodup := by
        simp only [List.map_cons, List.nodup_cons] at hnd
        exact hnd.2
      have hi' : i < ws.length := by simpa using hi
      have hd' : d = (ws.get ⟨i, hi'⟩).1 := hd
      rw [lastWrite_cons, lastWrite_get d ws hnd' i hi' hd']
      rfl

/-! ### Uniqueness of dates within one ticker's snapshot -/

theorem dates_nodup_of_const_ticker (ticker : String) :
    ∀ (m : List DRow), (m.map (fun r => (r.ticker, r.date))).Nodup →
      (∀ r ∈ m, r.ticker = ticker) → (m.map (fun r => r.date)).Nodup
  | [], _, _ => by simp
  | r :: m, hnd, hall => by
      simp only [List.map_cons, List.nodup_cons] at hnd ⊢
      refine ⟨?_, dates_nodup_of_const_ticker ticker m hnd.2
        (fun x hx => hall x (List.mem_cons_of_mem _ hx))⟩
      intro hmem
      rcases List.mem_map.mp hmem with ⟨x, hx, hdx⟩
      apply hnd.1
      refine List.mem_map.mpr ⟨x, hx, ?_⟩
      rw [Prod.ext_iff]
      exact ⟨by rw [hall x (List.mem_cons_of_mem _ hx), hall r (List.mem_cons_self _ _)], hdx⟩

theorem docs_dates_nodup (ticker : String) (l : List DRow) (h : KeysNodup l) :
    ((sortByDate (rowsFor ticker l)).map (fun r => r.date)).Nodup := by
  have hsub : List.Sublist (rowsFor ticker l) l := List.filter_sublist l
  have hkeys : ((rowsFor ticker l).map (fun r => (r.ticker, r.date))).Nodup :=
    List.Nodup.sublist (hsub.map _) h
  have hall : ∀ r ∈ rowsFor ticker l, r.ticker = ticker := by
    intro r hr
    have := List.mem_filter.mp hr
    simpa using this.2
  have hnd := dates_nodup_of_const_ticker ticker (rowsFor ticker l) hkeys hall
  have hperm : List.Perm (sortByDate (rowsFor ticker l)) (rowsFor ticker l) :=
    List.perm_insertionSort _ _
  exact ((hperm.map (fun r => r.date)).nodup_iff).mpr hnd

theorem wsOf_length (sqrt : ℚ → ℚ) (w : Nat) (l : List DRow) (ticker : String) :
    (wsOf sqrt w l ticker).length = (sortByDate (rowsFor ticker l)).length := by
  unfold wsOf
  rw [List.length_zip, corrList_length, List.length_map, List.length_map, Nat.min_self]

theorem wsOf_map_fst (sqrt : ℚ → ℚ) (w : Nat) (l : List DRow) (ticker : String) :
    (wsOf sqrt w l ticker).map (fun dc => dc.1) =
      (sortByDate (rowsFor ticker l)).map (fun r => r.date) := by
  unfold wsOf
  apply List.map_fst_zip
  rw [corrList_length, List.length_map, List.length_map]

theorem wsOf_get (sqrt : ℚ → ℚ) (w : Nat) (l : List DRow) (ticker : String) (i : Nat)
    (hi : i < (wsOf sqrt w l ticker).length)
    (hd : i < (sortByDate (rowsFor ticker l)).length)
    (hc : i < (corrList sqrt w ((sortByDate (rowsFor ticker l)).map obsOf)).length) :
    (wsOf sqrt w l ticker).get ⟨i, hi⟩ =
      (((sortByDate (rowsFor ticker l)).get ⟨i, hd⟩).date,
        (corrList sqrt w ((sortByDate (rowsFor ticker l)).map obsOf)).get ⟨i, hc⟩) := by
  unfold wsOf
  simp [List.getElem_zip, List.getElem_map]

/-- Claim C2: for every ticker, the value the rolling-correlation pass writes to
`rolling_corr_7d` when it visits the `i`-th row (in ascending date order) is the
Pearson correlation over exactly the pairs (daily_return, avg_sentiment_score) that
are both non-null among the last `min (i+1) w` visited rows (FIFO on position,
calendar gaps not filled). -/
theorem claim_C2 (sqrt : ℚ → ℚ) (t : Int) (w : Nat) (ticker : String) (l : List DRow)
    (hkeys : KeysNodup l) (i : Nat)
    (hi : i < (sortByDate (rowsFor ticker l)).length) (r : DRow)
    (hr : r ∈ update_rolling_corr_for_ticker sqrt t w ticker l)
    (ht : r.ticker = ticker)
    (hd : r.date = ((sortByDate (rowsFor ticker l)).get ⟨i, hi⟩).date) :
    r.rolling_corr_7d =
      pearson_corr sqrt (validPairs (windowOf w
        (((sortByDate (rowsFor ticker l)).map obsOf).take (i + 1)))) := by
  rw [update_eq_map] at hr
  rcases List.mem_map.mp hr with ⟨r0, hr0, hmap⟩
  have hpres := presCW_chainWrite t ticker (wsOf sqrt w l ticker) r0
  have ht0 : r0.ticker = ticker := by rw [← (hpres).1, hmap, ht]
  have hd0 : r0.date = ((sortByDate (rowsFor ticker l)).get ⟨i, hi⟩).date := by
    rw [← (hpres).2.1, hmap, hd]
  have hwlen : i < (wsOf sqrt w l ticker).length := by
    rw [wsOf_length]; exact hi
  have hclen : i < (corrList sqrt w ((sortByDate (rowsFor ticker l)).map obsOf)).length := by
    rw [corrList_length, List.length_map]; exact hi
  have hnd : ((wsOf sqrt w l ticker).map (fun dc => dc.1)).Nodup := by
    rw [wsOf_map_fst]; exact docs_dates_nodup ticker l hkeys
  have hget := wsOf_get sqrt w l ticker i hwlen hi hclen
  have hdw : r0.date = ((wsOf sqrt w l ticker).get ⟨i, hwlen⟩).1 := by
    rw [hget]; exact hd0
  have hlast := lastWrite_get r0.date (wsOf sqrt w l ticker) hnd i hwlen hdw
  have hcw := chainWrite_eq_lastWrite t ticker (wsOf sqrt w l ticker) r0 ht0
  rw [hlast] at hcw
  have hr_eq : r = setCorr ((wsOf sqrt w l ticker).get ⟨i, hwlen⟩).2 t r0 := by
    rw [← hmap, hcw]; rfl
  have hcorr : r.rolling_corr_7d = ((wsOf sqrt w l ticker).get ⟨i, hwlen⟩).2 := by
    rw [hr_eq]; rfl
  rw [hcorr, hget]
  exact corrList_get sqrt w _ i hclen

/-- Witness for C2: on a concrete two-row AAPL collection, applying the claim at
position 0 (whose window holds a single row, hence no valid pair). -/
theorem claim_C2_witness :
    (⟨"AAPL", 0, none, none, none, none, 0, none, none, some 5⟩ : DRow).rolling_corr_7d =
      pearson_corr (fun q => q) (validPairs (windowOf 7
        (((sortByDate (rowsFor "AAPL" wlC2)).map obsOf).take 1))) :=
  claim_C2 (fun q => q) 5 7 "AAPL" wlC2 (by decide) 0 (by decide)
    ⟨"AAPL", 0, none, none, none, none, 0, none, none, some 5⟩
    (by decide) (by decide) (by decide)

/-- Claim C3: whenever the filtered window holds fewer than two valid pairs, or either
sum of squared deviations is exactly zero, the computed value is null (degeneracy
resolves to null, not an error or NaN; in this embedding `pearson_corr` is a total
function into `Option ℚ`). -/
theorem claim_C3 (sqrt : ℚ → ℚ) (w : Nat) (rows : List Obs) (i : Nat)
    (hi : i < (corrList sqrt w rows).length)
    (hdeg : (validPairs (windowOf w (rows.take (i + 1)))).length < 2 ∨
      ssDev ((validPairs (windowOf w (rows.take (i + 1)))).map Prod.fst) = 0 ∨
      ssDev ((validPairs (windowOf w (rows.take (i + 1)))).map Prod.snd) = 0) :
    (corrList sqrt w rows).get ⟨i, hi⟩ = none := by
  rw [corrList_get]
  simp only [pearson_corr]
  split_ifs with h1 h2
  · rfl
  · rfl
  · exfalso
    rcases hdeg with h | h | h
    · exact h1 h
    · exact h2 (Or.inl h)
    · exact h2 (Or.inr h)

/-- Witness for C3: a single-row sequence; its window has one valid pair, so the
written value is null. -/
theorem claim_C3_witness :
    (corrList (fun q => q) 7 [(some 1, some 1)]).get ⟨0, by decide⟩ = none :=
  claim_C3 (fun q => q) 7 [(some 1, some 1)] 0 (by decide) (by decide)

/-- Claim C4 (no look-ahead): the value computed at position `i` depends only on the
rows at positions `≤ i`; two sequences agreeing on their first `i+1` rows yield the
same value at `i`, however their later rows differ. -/
theorem claim_C4 (sqrt : ℚ → ℚ) (w : Nat) (rows1 rows2 : List Obs) (i : Nat)
    (hpre : rows1.take (i + 1) = rows2.take (i + 1))
    (h1 : i < (corrList sqrt w rows1).length)
    (h2 : i < (corrList sqrt w rows2).length) :
    (corrList sqrt w rows1).get ⟨i, h1⟩ = (corrList sqrt w rows2).get ⟨i, h2⟩ := by
  rw [corrList_get, corrList_get, hpre]

/-- Witness for C4: two sequences sharing their first row but with different second
rows give the same value at position 0. -/
theorem claim_C4_witness :
    (corrList (fun q => q) 7 [(some 1, some 1), (some 2, some 2)]).get ⟨0, by decide⟩ =
      (corrList (fun q => q) 7 [(some 1, some 1), (some 3, none)]).get ⟨0, by decide⟩ :=
  claim_C4 (fun q => q) 7 [(some 1, some 1), (some 2, some 2)]
    [(some 1, some 1), (some 3, none)] 0 (by decide) (by decide) (by decide)

/-! ### The aggregation pass: `UTC` is unbound, so it never writes -/

theorem upsert_always_err (t : Int) (ticker : String) (d : Int)
    (cp ret av : Option ℚ) (dm : Option String) (cnt : Nat) (l : List DRow) :
    upsert_daily_metric t ticker d cp ret av dm cnt l = .error .nameError := by
  unfold upsert_daily_metric
  rw [if_neg (by decide)]

theorem run_dates_fst (t : Int) (news : List NEvent) (ticker : String) (startD : Int) :
    ∀ (series : List (Int × ℚ × Option ℚ)) (l : List DRow),
      (run_dates t news ticker startD series l).1 = l
  | [], l => rfl
  | (d, c, ret) :: rest, l => by
      rw [run_dates]
      by_cases hlt : d < startD
      · rw [if_pos hlt]
        exact run_dates_fst t news ticker startD rest l
      · rw [if_neg hlt]
        show (match upsert_daily_metric t ticker d (some c) ret
            (aggregate_sentiment_for_day news ticker d).1
            (aggregate_sentiment_for_day news ticker d).2.1
            (aggregate_sentiment_for_day news ticker d).2.2 l with
          | Except.ok l2 => run_dates t news ticker startD rest l2
          | Except.error e => (l, some e)).1 = l
        rw [upsert_always_err]

theorem run_agg_tickers_fst (t : Int) (news : List NEvent) (prices : List PCandle)
    (startD : Int) :
    ∀ (ts : List String) (l : List DRow),
      (run_agg_tickers t news prices startD ts l).1 = l
  | [], l => rfl
  | ticker :: rest, l => by
      simp only [run_agg_tickers]
      rcases hrd : run_dates t news ticker startD
          (sortByKey (build_price_series prices ticker)) l with ⟨l2, e⟩
      have hl2 : l2 = l := by
        have h := run_dates_fst t news ticker startD
          (sortByKey (build_price_series prices ticker)) l
        rw [hrd] at h
        exact h
      cases e
      · rw [hl2]
        exact run_agg_tickers_fst t news prices startD rest l
      · exact hl2

theorem run_daily_aggregation_fst (t today : Int) (days_back : Nat) (s : Store) :
    (run_daily_aggregation t today days_back s).1 = s := by
  show ({ news := s.news,
          prices := s.prices,
          daily :=
            (run_agg_tickers t s.news s.prices (today - days_back) TICKERS s.daily).1 } :
      Store) = s
  rw [run_agg_tickers_fst]

/-- Claim C1: every call to `upsert_daily_metric` raises a NameError (the module
binds no name `UTC`), and consequently `run_daily_aggregation` never writes or
overwrites any row: the store it leaves behind is exactly the one it started from. -/
theorem claim_C1 :
    (∀ (t : Int) (ticker : String) (d : Int) (cp ret av : Option ℚ)
        (dm : Option String) (cnt : Nat) (l : List DRow),
        upsert_daily_metric t ticker d cp ret av dm cnt l = .error .nameError) ∧
    (∀ (t today : Int) (days_back : Nat) (s : Store),
        (run_daily_aggregation t today days_back s).1 = s) :=
  ⟨fun t ticker d cp ret av dm cnt l => upsert_always_err t ticker d cp ret av dm cnt l,
   fun t today days_back s => run_daily_aggregation_fst t today days_back s⟩

/-- Claim C8 (the code contradicts the claim's upserter half): any concrete call to
`upsert_daily_metric` — the failing input below is `("AAPL", day 19732)` with a close
of 189.95 — raises `NameError` before the write, so the metric fields are never
overwritten; the correlation-engine half of the claim does hold: its write leaves
every metric field of every row unchanged, touching only `rolling_corr_7d` and
`corr_updated_at`. -/
theorem claim_C8 :
    upsert_daily_metric 0 "AAPL" 19732 (some (18995 / 100)) none none none 0 [] =
      .error .nameError ∧
    ∀ (sqrt : ℚ → ℚ) (t : Int) (w : Nat) (ticker : String) (l : List DRow),
      (update_rolling_corr_for_ticker sqrt t w ticker l).map metricFields =
        l.map metricFields := by
  refine ⟨upsert_always_err 0 "AAPL" 19732 (some (18995 / 100)) none none none 0 [], ?_⟩
  intro sqrt t w ticker l
  rw [update_eq_map, List.map_map]
  exact List.map_eq_map_iff.mpr
    (fun r _ => chainWrite_metric t ticker (wsOf sqrt w l ticker) r)

/-! ### Idempotence of the correlation pass up to `corr_updated_at` -/

theorem sortByDate_map (g : DRow → DRow) (hg : ∀ r, (g r).date = r.date) (l : List DRow) :
    sortByDate (l.map g) = (sortByDate l).map g := by
  unfold sortByDate
  exact (List.map_insertionSort _ _ g l (fun a _ b _ => by rw [hg a, hg b])).symm

theorem rowsFor_map (ticker : String) (g : DRow → DRow)
    (hg : ∀ r, (g r).ticker = r.ticker) (l : List DRow) :
    rowsFor ticker (l.map g) = (rowsFor ticker l).map g := by
  unfold rowsFor
  rw [List.filter_map]
  congr 1
  apply List.filter_congr
  intro r _
  simp [Function.comp, hg r]

theorem obsOf_pres {g : DRow → DRow} (hg : PresCW g) (r : DRow) : obsOf (g r) = obsOf r := by
  unfold obsOf
  rw [(hg r).2.2.1, (hg r).2.2.2]

theorem wsOf_map (sqrt : ℚ → ℚ) (w : Nat) (g : DRow → DRow) (hg : PresCW g)
    (l : List DRow) (ticker : String) :
    wsOf sqrt w (l.map g) ticker = wsOf sqrt w l ticker := by
  show ((sortByDate (rowsFor ticker (l.map g))).map (fun r => r.date)).zip
      (corrList sqrt w ((sortByDate (rowsFor ticker (l.map g))).map obsOf)) =
    ((sortByDate (rowsFor ticker l)).map (fun r => r.date)).zip
      (corrList sqrt w ((sortByDate (rowsFor ticker l)).map obsOf))
  rw [rowsFor_map ticker g (fun r => (hg r).1) l,
    sortByDate_map g (fun r => (hg r).2.1) (rowsFor ticker l)]
  congr 1
  · rw [List.map_map]
    exact List.map_eq_map_iff.mpr (fun r _ => (hg r).2.1)
  · congr 1
    rw [List.map_map]
    exact List.map_eq_map_iff.mpr (fun r _ => obsOf_pres hg r)

theorem presCW_passWrite (fam : String → List (Int × Option ℚ)) (t : Int) :
    ∀ (ts : List String), PresCW (passWrite fam t ts)
  | [] => fun _ => ⟨rfl, rfl, rfl, rfl⟩
  | ticker :: ts => fun r => by
      have h1 := presCW_chainWrite t ticker (fam ticker) r
      have h2 := presCW_passWrite fam t ts (chainWrite t ticker (fam ticker) r)
      exact ⟨h2.1.trans h1.1, h2.2.1.trans h1.2.1,
        h2.2.2.1.trans h1.2.2.1, h2.2.2.2.trans h1.2.2.2⟩

theorem passWrite_congr (f g : String → List (Int × Option ℚ))
    (hfg : ∀ ticker, f ticker = g ticker) (t : Int) :
    ∀ (ts : List String) (r : DRow), passWrite f t ts r = passWrite g t ts r
  | [], _ => rfl
  | ticker :: ts, r => by
      show passWrite f t ts (chainWrite t ticker (f ticker) r) =
        passWrite g t ts (chainWrite t ticker (g ticker) r)
      rw [hfg ticker, passWrite_congr f g hfg t ts]

theorem corrPass_form (sqrt : ℚ → ℚ) (w : Nat) (t : Int) :
    ∀ (ts : List String) (l : List DRow),
      corrPass sqrt t w ts l = l.map (passWrite (fun ticker => wsOf sqrt w l ticker) t ts)
  | [], l => by
      show l = l.map (passWrite (fun ticker => wsOf sqrt w l ticker) t [])
      rw [show passWrite (fun ticker => wsOf sqrt w l ticker) t [] = id from rfl, List.map_id]
  | ticker :: ts, l => by
      show corrPass sqrt t w ts (update_rolling_corr_for_ticker sqrt t w ticker l) = _
      rw [update_eq_map sqrt t w ticker l,
        corrPass_form sqrt w t ts (l.map (chainWrite t ticker (wsOf sqrt w l ticker))),
        List.map_map]
      apply List.map_eq_map_iff.mpr
      intro r _
      have hfam : ∀ t2, wsOf sqrt w (l.map (chainWrite t ticker (wsOf sqrt w l ticker))) t2 =
          wsOf sqrt w l t2 :=
        fun t2 => wsOf_map sqrt w _ (presCW_chainWrite t ticker _) l t2
      show passWrite
          (fun t2 => wsOf sqrt w (l.map (chainWrite t ticker (wsOf sqrt w l ticker))) t2) t ts
          (chainWrite t ticker (wsOf sqrt w l ticker) r) =
        passWrite (fun t2 => wsOf sqrt w l t2) t (ticker :: ts) r
      rw [passWrite_congr _ _ hfam]
      rfl

theorem chainWrite_twice (t1 t2 : Int) (ticker : String) (ws : List (Int × Option ℚ))
    (r : DRow) :
    eraseTime (chainWrite t2 ticker ws (chainWrite t1 ticker ws r)) =
      eraseTime (chainWrite t1 ticker ws r) := by
  by_cases ht : r.ticker = ticker
  · have h1 := chainWrite_eq_lastWrite t1 ticker ws r ht
    have hpres := presCW_chainWrite t1 ticker ws r
    have ht2 : (chainWrite t1 ticker ws r).ticker = ticker := by rw [hpres.1]; exact ht
    have h2 := chainWrite_eq_lastWrite t2 ticker ws (chainWrite t1 ticker ws r) ht2
    rw [hpres.2.1] at h2
    rcases hlw : lastWrite r.date ws with _ | c
    · rw [hlw] at h1 h2
      simp only [Option.map_none', Option.getD_none] at h1 h2
      rw [h2, h1]
    · rw [hlw] at h1 h2
      simp only [Option.map_some', Option.getD_some] at h1 h2
      rw [h2, h1, setCorr_setCorr]
      rfl
  · have ht2 : (chainWrite t1 ticker ws r).ticker ≠ ticker := by
      rw [(presCW_chainWrite t1 ticker ws r).1]; exact ht
    rw [chainWrite_skip t2 ticker ws _ ht2]

theorem passWrite_skip (fam : String → List (Int × Option ℚ)) (t : Int) :
    ∀ (ts : List String) (r : DRow), r.ticker ∉ ts → passWrite fam t ts r = r
  | [], _, _ => rfl
  | ticker :: ts, r, h => by
      have hne : r.ticker ≠ ticker := fun he => h (by rw [he]; exact List.mem_cons_self _ _)
      show passWrite fam t ts (chainWrite t ticker (fam ticker) r) = r
      rw [chainWrite_skip t ticker (fam ticker) r hne]
      exact passWrite_skip fam t ts r (fun hm => h (List.mem_cons_of_mem _ hm))

theorem passWrite_twice (fam : String → List (Int × Option ℚ)) (t1 t2 : Int) :
    ∀ (ts : List String), ts.Nodup → ∀ (r : DRow),
      eraseTime (passWrite fam t2 ts (passWrite fam t1 ts r)) =
        eraseTime (passWrite fam t1 ts r)
  | [], _, _ => rfl
  | ticker :: ts, hnd, r => by
      have hnd' : ts.Nodup := (List.nodup_cons.mp hnd).2
      have hTn : ticker ∉ ts := (List.nodup_cons.mp hnd).1
      show eraseTime (passWrite fam t2 ts (chainWrite t2 ticker (fam ticker)
        (passWrite fam t1 ts (chainWrite t1 ticker (fam ticker) r)))) =
      eraseTime (passWrite fam t1 ts (chainWrite t1 ticker (fam ticker) r))
      by_cases ht : r.ticker = ticker
      · have h1 : passWrite fam t1 ts (chainWrite t1 ticker (fam ticker) r) =
            chainWrite t1 ticker (fam ticker) r :=
          passWrite_skip fam t1 ts _ (by
            rw [(presCW_chainWrite t1 ticker (fam ticker) r).1, ht]; exact hTn)
        rw [h1]
        have h2 : passWrite fam t2 ts (chainWrite t2 ticker (fam ticker)
            (chainWrite t1 ticker (fam ticker) r)) =
            chainWrite t2 ticker (fam ticker) (chainWrite t1 ticker (fam ticker) r) :=
          passWrite_skip fam t2 ts _ (by
            rw [(presCW_chainWrite t2 ticker (fam ticker) _).1,
              (presCW_chainWrite t1 ticker (fam ticker) r).1, ht]; exact hTn)
        rw [h2]
        exact chainWrite_twice t1 t2 ticker (fam ticker) r
      · rw [chainWrite_skip t1 ticker (fam ticker) r ht]
        have htp : (passWrite fam t1 ts r).ticker = r.ticker := (presCW_passWrite fam t1 ts r).1
        rw [chainWrite_skip t2 ticker (fam ticker) _ (by rw [htp]; exact ht)]
        exact passWrite_twice fam t1 t2 ts hnd' r

theorem corrPass_idem (sqrt : ℚ → ℚ) (w : Nat) (ts : List String) (hnd : ts.Nodup)
    (t1 t2 : Int) (l : List DRow) :
    (corrPass sqrt t2 w ts (corrPass sqrt t1 w ts l)).map eraseTime =
      (corrPass sqrt t1 w ts l).map eraseTime := by
  rw [corrPass_form sqrt w t1 ts l,
    corrPass_form sqrt w t2 ts (l.map (passWrite (fun ticker => wsOf sqrt w l ticker) t1 ts)),
    List.map_map, List.map_map, List.map_map]
  apply List.map_eq_map_iff.mpr
  intro r _
  have hfam : ∀ ticker,
      wsOf sqrt w (l.map (passWrite (fun t2 => wsOf sqrt w l t2) t1 ts)) ticker =
        wsOf sqrt w l ticker :=
    fun ticker => wsOf_map sqrt w _ (presCW_passWrite _ t1 ts) l ticker
  show eraseTime (passWrite
      (fun ticker => wsOf sqrt w (l.map (passWrite (fun t2 => wsOf sqrt w l t2) t1 ts)) ticker)
      t2 ts (passWrite (fun ticker => wsOf sqrt w l ticker) t1 ts r)) =
    eraseTime (passWrite (fun ticker => wsOf sqrt w l ticker) t1 ts r)
  rw [passWrite_congr _ _ hfam]
  exact passWrite_twice _ t1 t2 ts hnd r

theorem run_pipeline_eq (sqrt : ℚ → ℚ) (t today : Int) (db w : Nat) (s : Store) :
    run_pipeline sqrt t today db w s = run_rolling_corr sqrt t w s := by
  unfold run_pipeline
  rw [run_daily_aggregation_fst]

set_option maxHeartbeats 2000000 in
/-- Counterexample to claim C7 as stated: on a one-row store, running both passes
at clock 0 and re-running them at clock 1 does not reproduce byte-identical rows —
`corr_updated_at` is refreshed by the second correlation pass. -/
theorem claim_C7_cex :
    (run_pipeline (fun q => q) 1 0 0 7 (run_pipeline (fun q => q) 0 0 0 7 s0C7)).daily ≠
      (run_pipeline (fun q => q) 0 0 0 7 s0C7).daily := by decide

/-- Claim C7 as amended: re-running the aggregation pass and the correlation pass over
unchanged upstream inputs reproduces every DailyMetric field byte-identically except
`corr_updated_at`, which is refreshed to the re-run's clock (`updated_at` is never
written at all, the aggregation pass failing before any write); the news and price
collections are untouched. -/
theorem claim_C7_amended (sqrt : ℚ → ℚ) (w : Nat) (t1 t2 today1 today2 : Int)
    (db1 db2 : Nat) (s : Store) :
    ((run_pipeline sqrt t2 today2 db2 w (run_pipeline sqrt t1 today1 db1 w s)).daily).map
        eraseTime =
      ((run_pipeline sqrt t1 today1 db1 w s).daily).map eraseTime ∧
    (run_pipeline sqrt t2 today2 db2 w (run_pipeline sqrt t1 today1 db1 w s)).news =
      (run_pipeline sqrt t1 today1 db1 w s).news ∧
    (run_pipeline sqrt t2 today2 db2 w (run_pipeline sqrt t1 today1 db1 w s)).prices =
      (run_pipeline sqrt t1 today1 db1 w s).prices := by
  rw [run_pipeline_eq sqrt t1 today1 db1 w s,
    run_pipeline_eq sqrt t2 today2 db2 w (run_rolling_corr sqrt t1 w s)]
  have hdaily : ∀ (t : Int) (s2 : Store),
      (run_rolling_corr sqrt t w s2).daily = corrPass sqrt t w TICKERS s2.daily :=
    fun _ _ => rfl
  have hnews : ∀ (t : Int) (s2 : Store), (run_rolling_corr sqrt t w s2).news = s2.news :=
    fun _ _ => rfl
  have hprices : ∀ (t : Int) (s2 : Store),
      (run_rolling_corr sqrt t w s2).prices = s2.prices :=
    fun _ _ => rfl
  refine ⟨?_, by rw [hnews, hnews], by rw [hprices, hprices]⟩
  simp only [hdaily]
  exact corrPass_idem sqrt w TICKERS (by decide) t1 t2 s.daily

/-! ### The Daily Series Builder: day-over-day returns -/

theorem priceSeriesAux_eq :
    ∀ (series : List (Int × ℚ)) (prev : Option ℚ) (acc : List (Int × ℚ × Option ℚ)),
      (series.map (fun e => e.1)).Nodup →
      (∀ e ∈ series, e.1 ∉ acc.map (fun a => a.1)) →
      priceSeriesAux series prev acc = acc ++ zipSeries prev series
  | [], _, acc, _, _ => by simp [priceSeriesAux, zipSeries]
  | (d, c) :: rest, prev, acc, hnd, hfresh => by
      rw [priceSeriesAux]
      have hdacc : d ∉ acc.map (fun a => a.1) := hfresh (d, c) (List.mem_cons_self _ _)
      have hndc : d ∉ rest.map (fun e => e.1) ∧ (rest.map (fun e => e.1)).Nodup := by
        simp only [List.map_cons, List.nodup_cons] at hnd
        exact hnd
      have hupd : dictUpd acc d (c, retOf prev c) = acc ++ [(d, (c, retOf prev c))] := by
        unfold dictUpd
        rw [if_neg]
        intro hany
        rcases List.any_eq_true.mp hany with ⟨e, he, hde⟩
        exact hdacc (List.mem_map.mpr ⟨e, he, by simpa using hde⟩)
      rw [hupd]
      have hfresh' : ∀ e ∈ rest, e.1 ∉ (acc ++ [(d, (c, retOf prev c))]).map
          (fun a => a.1) := by
        intro e he hmem
        rw [List.map_append, List.mem_append] at hmem
        rcases hmem with hm | hm
        · exact hfresh e (List.mem_cons_of_mem _ he) hm
        · have he1 : e.1 = d := by simpa using hm
          exact hndc.1 (List.mem_map.mpr ⟨e, he, he1⟩)
      rw [priceSeriesAux_eq rest (some c) _ hndc.2 hfresh']
      simp [zipSeries, List.append_assoc]

theorem build_price_series_eq (prices : List PCandle) (ticker : String)
    (hnd : ((sortByTs (prices.filter (fun p => p.ticker = ticker))).map
      (fun p => dateOf p.ts)).Nodup) :
    build_price_series prices ticker =
      zipSeries none ((sortByTs (prices.filter (fun p => p.ticker = ticker))).map
        (fun p => (dateOf p.ts, p.close))) := by
  unfold build_price_series
  rw [priceSeriesAux_eq _ none [] (by simpa [List.map_map] using hnd) (by simp)]
  simp

theorem retOf_some (p c : ℚ) :
    retOf (some p) c = if p = 0 then none else some ((c - p) / p) := by
  unfold retOf
  by_cases h : p = 0
  · simp [h]
  · simp [h]

theorem zipSeries_head_ret (series : List (Int × ℚ))
    (h0 : 0 < (zipSeries none series).length) :
    ((zipSeries none series).get ⟨0, h0⟩).2.2 = none := by
  rcases series with _ | ⟨⟨d, c⟩, rest⟩
  · simp [zipSeries] at h0
  · rfl

theorem zipSeries_succ_ret :
    ∀ (prev : Option ℚ) (series : List (Int × ℚ)) (j : Nat)
      (hj : j + 1 < (zipSeries prev series).length)
      (hj0 : j < (zipSeries prev series).length),
      ((zipSeries prev series).get ⟨j + 1, hj⟩).2.2 =
        retOf (some (((zipSeries prev series).get ⟨j, hj0⟩).2.1))
          (((zipSeries prev series).get ⟨j + 1, hj⟩).2.1)
  | _, [], j, hj, _ => by simp [zipSeries] at hj
  | prev, (d, c) :: rest, 0, hj, hj0 => by
      rcases rest with _ | ⟨⟨d2, c2⟩, rest2⟩
      · simp [zipSeries] at hj
      · rfl
  | prev, (d, c) :: rest, j + 1, hj, hj0 => by
      have hj' : j + 1 < (zipSeries (some c) rest).length := by
        simpa [zipSeries] using hj
      have hj0' : j < (zipSeries (some c) rest).length := by omega
      exact zipSeries_succ_ret (some c) rest j hj' hj0'

/-- Claim C5: in the Daily Series Builder's output (one candle per trading day, as the
data model guarantees — expressed as distinct calendar dates after sorting), the first
entry's `daily_return` is null, and every later entry's `daily_return` is
`(close - prev_close) / prev_close` against the immediately preceding entry of the
series (the previous available date), null exactly when that previous close is 0. -/
theorem claim_C5 (prices : List PCandle) (ticker : String)
    (hnd : ((sortByTs (prices.filter (fun p => p.ticker = ticker))).map
      (fun p => dateOf p.ts)).Nodup) :
    (∀ (h0 : 0 < (build_price_series prices ticker).length),
      ((build_price_series prices ticker).get ⟨0, h0⟩).2.2 = none) ∧
    (∀ (j : Nat) (hj : j + 1 < (build_price_series prices ticker).length)
        (hj0 : j < (build_price_series prices ticker).length),
      ((build_price_series prices ticker).get ⟨j + 1, hj⟩).2.2 =
        (if ((build_price_series prices ticker).get ⟨j, hj0⟩).2.1 = 0 then none
         else some ((((build_price_series prices ticker).get ⟨j + 1, hj⟩).2.1 -
             ((build_price_series prices ticker).get ⟨j, hj0⟩).2.1) /
           ((build_price_series prices ticker).get ⟨j, hj0⟩).2.1))) := by
  have heq := build_price_series_eq prices ticker hnd
  simp only [List.get_eq_getElem, heq]
  constructor
  · intro h0
    have h := zipSeries_head_ret
      ((sortByTs (prices.filter (fun p => p.ticker = ticker))).map
        (fun p => (dateOf p.ts, p.close))) h0
    simpa using h
  · intro j hj hj0
    have h := zipSeries_succ_ret none
      ((sortByTs (prices.filter (fun p => p.ticker = ticker))).map
        (fun p => (dateOf p.ts, p.close))) j hj hj0
    simp only [List.get_eq_getElem] at h
    rw [h, retOf_some]

/-- Witness for C5: the claim instantiated on two concrete AAPL candles with closes
10 and 20 on consecutive days. -/
theorem claim_C5_witness :
    (∀ (h0 : 0 < (build_price_series wpC5 "AAPL").length),
      ((build_price_series wpC5 "AAPL").get ⟨0, h0⟩).2.2 = none) ∧
    (∀ (j : Nat) (hj : j + 1 < (build_price_series wpC5 "AAPL").length)
        (hj0 : j < (build_price_series wpC5 "AAPL").length),
      ((build_price_series wpC5 "AAPL").get ⟨j + 1, hj⟩).2.2 =
        (if ((build_price_series wpC5 "AAPL").get ⟨j, hj0⟩).2.1 = 0 then none
         else some ((((build_price_series wpC5 "AAPL").get ⟨j + 1, hj⟩).2.1 -
             ((build_price_series wpC5 "AAPL").get ⟨j, hj0⟩).2.1) /
           ((build_price_series wpC5 "AAPL").get ⟨j, hj0⟩).2.1))) :=
  claim_C5 wpC5 "AAPL" (by decide)

/-! ### The Daily Sentiment Aggregator -/

/-- Claim C6: with zero qualifying events (ticker's events in the half-open UTC day
with a non-null score) the aggregator returns `(null, null, 0)`; otherwise it returns
the arithmetic mean of all qualifying scores, the most frequent non-null label with
ties broken by first-encountered retrieval order (`mostCommonFirst`), and the count of
qualifying events.  The hypothesis excludes empty-string labels, which the data model
rules out (labels are bullish/bearish/neutral/null) and on which the source's Python
truthiness test would additionally drop the label. -/
theorem claim_C6 (news : List NEvent) (ticker : String) (d : Int)
    (hlab : ∀ e ∈ news, e.sentiment_label ≠ some "") :
    aggregate_sentiment_for_day news ticker d =
      (if (qualifyingEvents news ticker d).isEmpty then (none, none, 0)
       else
        (some (((qualifyingEvents news ticker d).filterMap
              (fun e => e.sentiment_score)).sum /
            ((((qualifyingEvents news ticker d).filterMap
              (fun e => e.sentiment_score)).length : ℚ))),
         mostCommonFirst ((qualifyingEvents news ticker d).filterMap
            (fun e => e.sentiment_label)),
         (qualifyingEvents news ticker d).length)) := by
  simp only [aggregate_sentiment_for_day]
  by_cases hq : (qualifyingEvents news ticker d).isEmpty
  · rw [if_pos hq, if_pos hq]
  · rw [if_neg hq, if_neg hq]
    have hne : qualifyingEvents news ticker d ≠ [] := by
      intro h0
      rw [h0] at hq
      exact hq rfl
    have hsub : ∀ e ∈ qualifyingEvents news ticker d, e ∈ news := by
      intro e he
      exact (List.mem_filter.mp he).1
    have hlabels : (((qualifyingEvents news ticker d).filterMap
        (fun e => e.sentiment_label)).filter (fun s => s ≠ "")) =
        (qualifyingEvents news ticker d).filterMap (fun e => e.sentiment_label) := by
      apply List.filter_eq_self.mpr
      intro x hx
      rcases List.mem_filterMap.mp hx with ⟨e, he, hex⟩
      have hne2 := hlab e (hsub e he)
      simp only [decide_eq_true_eq]
      intro hxe
      apply hne2
      rw [hex, hxe]
    have hsc : (qualifyingEvents news ticker d).filterMap
        (fun e => e.sentiment_score) ≠ [] := by
      rcases hL : qualifyingEvents news ticker d with _ | ⟨e, rest⟩
      · exact absurd hL hne
      · have he : e ∈ qualifyingEvents news ticker d := by
          rw [hL]
          exact List.mem_cons_self _ _
        have hes : e.sentiment_score ≠ none := by
          have hmem := (List.mem_filter.mp he).2
          simp only [decide_eq_true_eq] at hmem
          exact hmem.2.2.2
        rcases hs : e.sentiment_score with _ | v
        · exact absurd hs hes
        · simp [List.filterMap_cons, hs]
    rw [hlabels, if_neg (by simpa [List.isEmpty_iff] using hsc)]

/-- Witness for C6: the spec's example — scores 0.4 and -0.2 with labels
bullish / bearish give mean 0.1, the first-encountered label of the tie, and count 2. -/
theorem claim_C6_witness :
    aggregate_sentiment_for_day wnC6 "AAPL" 0 = (some (1 / 10), some "bullish", 2) := by
  have h := claim_C6 wnC6 "AAPL" 0 (by decide)
  rw [h]
  have h1 : qualifyingEvents wnC6 "AAPL" 0 = wnC6 := by
    simp [qualifyingEvents, wnC6, start_of_day]
  rw [h1]
  simp [wnC6, mostCommonFirst, firstOccs]
  norm_num

/-! ### The Timeseries Reader -/

theorem latest_spec (daily : List DRow) (ticker : String)
    (hx : ∃ r ∈ daily, r.ticker = ticker) :
    ∃ L, get_latest_date_for_ticker daily ticker = some L ∧
      (∃ r ∈ daily, r.ticker = ticker ∧ r.date = L) ∧
      (∀ r ∈ daily, r.ticker = ticker → r.date ≤ L) := by
  rcases hx with ⟨r0, hr0, ht0⟩
  have hmem0 : r0 ∈ rowsFor ticker daily :=
    List.mem_filter.mpr ⟨hr0, by simpa using ht0⟩
  have hne : sortByDateDesc (rowsFor ticker daily) ≠ [] := by
    intro h0
    have hin : r0 ∈ sortByDateDesc (rowsFor ticker daily) :=
      (List.mem_insertionSort (fun a b : DRow => b.date ≤ a.date)).mpr hmem0
    rw [h0] at hin
    simp at hin
  rcases hL : sortByDateDesc (rowsFor ticker daily) with _ | ⟨rmax, rest⟩
  · exact absurd hL hne
  · refine ⟨rmax.date, ?_, ?_, ?_⟩
    · unfold get_latest_date_for_ticker
      rw [hL]
      rfl
    · have hmem : rmax ∈ rowsFor ticker daily := by
        apply (List.mem_insertionSort (fun a b : DRow => b.date ≤ a.date)).mp
        show rmax ∈ sortByDateDesc (rowsFor ticker daily)
        rw [hL]
        exact List.mem_cons_self _ _
      have hsp := List.mem_filter.mp hmem
      exact ⟨rmax, hsp.1, by simpa using hsp.2, rfl⟩
    · intro r hr htr
      have hmem : r ∈ sortByDateDesc (rowsFor ticker daily) :=
        (List.mem_insertionSort (fun a b : DRow => b.date ≤ a.date)).mpr
          (List.mem_filter.mpr ⟨hr, by simpa using htr⟩)
      rw [hL] at hmem
      rcases List.mem_cons.mp hmem with he | hm
      · rw [he]
      · have hsorted : List.Sorted (fun a b : DRow => b.date ≤ a.date)
            (sortByDateDesc (rowsFor ticker daily)) :=
          List.sorted_insertionSort _ _
        rw [hL] at hsorted
        exact List.rel_of_sorted_cons hsorted r hm

/-- Claim C9: for a ticker with at least one row, the reader anchors `to_date` to the
ticker's latest stored date (not the wall clock), sets
`from_date = to_date - (days_back - 1)`, and returns exactly the ticker's rows with
`date ≥ from_date`, in ascending date order, each point copying the stored field
values verbatim (`toPoint`, nulls included). -/
theorem claim_C9 (daily : List DRow) (ticker : String) (days_back : Int)
    (hx : ∃ r ∈ daily, r.ticker = ticker) :
    ∃ L, (∃ r ∈ daily, r.ticker = ticker ∧ r.date = L) ∧
      (∀ r ∈ daily, r.ticker = ticker → r.date ≤ L) ∧
      (build_ticker_timeseries daily ticker days_back).to_date = some L ∧
      (build_ticker_timeseries daily ticker days_back).from_date =
        some (L - (days_back - 1)) ∧
      List.Sorted (fun a b : Int => a ≤ b)
        ((build_ticker_timeseries daily ticker days_back).points.map (fun p => p.date)) ∧
      (∀ p, p ∈ (build_ticker_timeseries daily ticker days_back).points ↔
        ∃ r ∈ daily, r.ticker = ticker ∧ L - (days_back - 1) ≤ r.date ∧ p = toPoint r) := by
  rcases latest_spec daily ticker hx with ⟨L, hget, hmem, hmax⟩
  unfold build_ticker_timeseries
  rw [hget]
  refine ⟨L, hmem, hmax, rfl, rfl, ?_, ?_⟩
  · show List.Sorted (fun a b : Int => a ≤ b)
      (((sortByDate (daily.filter
          (fun r => r.ticker = ticker ∧ L - (days_back - 1) ≤ r.date))).map toPoint).map
        (fun p => p.date))
    rw [List.map_map]
    have hs : List.Sorted (fun a b : DRow => a.date ≤ b.date)
        (sortByDate (daily.filter
          (fun r => r.ticker = ticker ∧ L - (days_back - 1) ≤ r.date))) :=
      List.sorted_insertionSort _ _
    exact List.Pairwise.map _ (fun a b h => h) hs
  · intro p
    show p ∈ (sortByDate (daily.filter
        (fun r => r.ticker = ticker ∧ L - (days_back - 1) ≤ r.date))).map toPoint ↔ _
    constructor
    · intro hp
      rcases List.mem_map.mp hp with ⟨r, hr, hpr⟩
      have hr2 : r ∈ daily.filter
          (fun r => r.ticker = ticker ∧ L - (days_back - 1) ≤ r.date) :=
        (List.mem_insertionSort (fun a b : DRow => a.date ≤ b.date)).mp hr
      have hsp := List.mem_filter.mp hr2
      have hprop : r.ticker = ticker ∧ L - (days_back - 1) ≤ r.date := by
        simpa using hsp.2
      exact ⟨r, hsp.1, hprop.1, hprop.2, hpr.symm⟩
    · rintro ⟨r, hr, htk, hge, hpr⟩
      apply List.mem_map.mpr
      refine ⟨r, ?_, hpr.symm⟩
      apply (List.mem_insertionSort (fun a b : DRow => a.date ≤ b.date)).mpr
      exact List.mem_filter.mpr ⟨hr, by simp [htk, hge]⟩

/-- Witness for C9: the claim instantiated on the two-row AAPL collection with
`days_back = 7`. -/
theorem claim_C9_witness :
    ∃ L, (∃ r ∈ wlC2, r.ticker = "AAPL" ∧ r.date = L) ∧
      (∀ r ∈ wlC2, r.ticker = "AAPL" → r.date ≤ L) ∧
      (build_ticker_timeseries wlC2 "AAPL" 7).to_date = some L ∧
      (build_ticker_timeseries wlC2 "AAPL" 7).from_date = some (L - (7 - 1)) ∧
      List.Sorted (fun a b : Int => a ≤ b)
        ((build_ticker_timeseries wlC2 "AAPL" 7).points.map (fun p => p.date)) ∧
      (∀ p, p ∈ (build_ticker_timeseries wlC2 "AAPL" 7).points ↔
        ∃ r ∈ wlC2, r.ticker = "AAPL" ∧ L - (7 - 1) ≤ r.date ∧ p = toPoint r) :=
  claim_C9 wlC2 "AAPL" 7 (by decide)

/-! ### The API endpoint: unsupported ticker vs supported ticker with no rows -/

theorem msg_ne (x y : String) :
    "Ticker " ++ x ++ " is not supported" ≠ "No daily metrics found for ticker " ++ y := by
  intro h
  have hd := congrArg String.data h
  rw [String.data_append, String.data_append, String.data_append] at hd
  have h1 : "Ticker ".data = 'T' :: "icker ".data := rfl
  have h2 : "No daily metrics found for ticker ".data =
      'N' :: "o daily metrics found for ticker ".data := rfl
  rw [h1, h2] at hd
  simp only [List.cons_append, List.cons.injEq] at hd
  exact absurd hd.1 (by decide)

/-- Counterexample to claim C10 as stated: both outcomes carry the same response code
404, and a supported ticker with zero rows does not surface an empty `points: []`
result from the endpoint — the endpoint turns the reader's empty result into a 404
error. -/
theorem claim_C10_cex :
    get_ticker_timeseries [] "ZZZZ" 7 = .error ⟨404, "Ticker ZZZZ is not supported"⟩ ∧
    get_ticker_timeseries [] "AAPL" 7 =
      .error ⟨404, "No daily metrics found for ticker AAPL"⟩ ∧
    (build_ticker_timeseries [] "AAPL" 7).points = [] := by
  refine ⟨?_, ?_, rfl⟩ <;> rfl

/-- Claim C10 amended: the two outcomes are both HTTP 404 errors (same response code)
distinguished only by their detail strings — "Ticker T is not supported" versus
"No daily metrics found for ticker T", which always differ; the reader
`build_ticker_timeseries` does return `points = []` for a supported ticker with no
rows, but the endpoint converts that empty result into the 404 rather than
returning it. -/
theorem claim_C10_amended (daily : List DRow) (t1 t2 : String) (days : Int)
    (h1 : toUpperStr t1 ∉ TICKERS)
    (h2 : toUpperStr t2 ∈ TICKERS)
    (h3 : ∀ r ∈ daily, r.ticker ≠ toUpperStr t2) :
    get_ticker_timeseries daily t1 days =
      .error ⟨404, "Ticker " ++ toUpperStr t1 ++ " is not supported"⟩ ∧
    get_ticker_timeseries daily t2 days =
      .error ⟨404, "No daily metrics found for ticker " ++ toUpperStr t2⟩ ∧
    ("Ticker " ++ toUpperStr t1 ++ " is not supported") ≠
      ("No daily metrics found for ticker " ++ toUpperStr t2) ∧
    (build_ticker_timeseries daily (toUpperStr t2) days).points = [] := by
  have hrows : rowsFor (toUpperStr t2) daily = [] := by
    unfold rowsFor
    rw [List.filter_eq_nil_iff]
    intro r hr
    simpa using h3 r hr
  have hlat : get_latest_date_for_ticker daily (toUpperStr t2) = none := by
    unfold get_latest_date_for_ticker
    rw [hrows]
    rfl
  have hb : build_ticker_timeseries daily (toUpperStr t2) days =
      ⟨toUpperStr t2, none, none, []⟩ := by
    unfold build_ticker_timeseries
    rw [hlat]
  refine ⟨?_, ?_, msg_ne (toUpperStr t1) (toUpperStr t2), by rw [hb]⟩
  · simp only [get_ticker_timeseries]
    rw [if_neg h1]
  · simp only [get_ticker_timeseries]
    rw [if_pos h2, hb]
    rfl

/-- Witness for C10 (amended): concrete calls — the unsupported ticker "ZZZZ" and the
supported-but-empty ticker passed in lowercase as "aapl" — on an empty store. -/
theorem claim_C10_amended_witness :
    get_ticker_timeseries [] "ZZZZ" 7 =
      .error ⟨404, "Ticker " ++ toUpperStr "ZZZZ" ++ " is not supported"⟩ ∧
    get_ticker_timeseries [] "aapl" 7 =
      .error ⟨404, "No daily metrics found for ticker " ++ toUpperStr "aapl"⟩ ∧
    ("Ticker " ++ toUpperStr "ZZZZ" ++ " is not supported") ≠
      ("No daily metrics found for ticker " ++ toUpperStr "aapl") ∧
    (build_ticker_timeseries [] (toUpperStr "aapl") 7).points = [] :=
  claim_C10_amended [] "ZZZZ" "aapl" 7 (by decide) (by decide) (by simp)

end FinSent
